import Mathlib

/-!
Shallow embedding of the `fim` file-integrity scanner (`src/main.go`) and
proofs about its specification claims.

The program walks configured directory roots, checksums every regular file
through a worker pool, and aggregates (path, checksum) results against a
previously persisted snapshot, classifying each as new / changed / unchanged.
Pure logic (the outputter step, the chunked checksum loop, the walker's
per-entry decision, sentinel shutdown) is embedded directly; filesystem and
channel effects are represented by explicit data (file contents as byte lists,
queues as lists, the scheduler's freedom as explicit parameters).
-/

namespace Fim

/-- `const CHUNKSIZE uint64 = 8192` (main.go line 51). -/
def CHUNKSIZE : Nat := 8192

/-- Model of Go's `fInfo` struct (main.go lines 28-33): file name (full path),
size, and the two mode bits the program inspects; `modTime` is captured but
never used by the logic. -/
structure fInfo where
  name : String
  sz : Nat
  isSymlink : Bool
  isDir : Bool
  modTime : Nat
deriving DecidableEq, Repr

/-- Model of Go's `item` struct (main.go lines 35-38): one checksum result. -/
structure item where
  File : String
  Checksum : String
deriving DecidableEq, Repr

/-- `inSlice` (main.go lines 65-72): linear membership scan. -/
def inSlice : List String → String → Bool
  | [], _ => false
  | w :: ws, word => if word = w then true else inSlice ws word

/-! ## Checksum function (main.go lines 85-108)

`checkSumSHA1` opens the file; on failure it returns the error's description
string.  Otherwise it reads the file in `blocks = ceil(filesize/CHUNKSIZE)`
chunks, the i-th of size `min(CHUNKSIZE, filesize - i*CHUNKSIZE)`, feeding
each chunk into a running SHA-1, and returns the hex digest.  We model the
file's bytes as a `List Nat`, the open result as `Except String (List Nat)`,
and the SHA-1+hex pipeline abstractly as a function `h` from the concatenated
byte stream to a string (the digest is a function of exactly the bytes
written into the hash). -/

/-- `blocks := uint64(math.Ceil(float64(filesize) / float64(CHUNKSIZE)))`
(main.go line 95), exact for all realistic sizes. -/
def blocksOf (filesize : Nat) : Nat := (filesize + CHUNKSIZE - 1) / CHUNKSIZE

/-- `blocksize := int(math.Min(float64(CHUNKSIZE), float64(filesize-int64(i*CHUNKSIZE))))`
(main.go line 100). -/
def blocksizeAt (filesize i : Nat) : Nat := min CHUNKSIZE (filesize - i * CHUNKSIZE)

/-- The i-th chunk the loop reads: the file is read sequentially, so chunk `i`
starts at offset `i*CHUNKSIZE` and has `blocksizeAt filesize i` bytes. -/
def chunkAt (content : List Nat) (filesize i : Nat) : List Nat :=
  (content.drop (i * CHUNKSIZE)).take (blocksizeAt filesize i)

/-- The byte stream written into the hash by the chunk loop
(main.go lines 99-105): concatenation of all `blocksOf filesize` chunks. -/
def chunkedData (content : List Nat) (filesize : Nat) : List Nat :=
  (List.range (blocksOf filesize)).flatMap (chunkAt content filesize)

/-- `checkSumSHA1` (main.go lines 85-108) in the case where every chunk read
succeeds: on open failure return the error description string
(`fmt.Sprintf("%v", err)`); otherwise the digest `h` of the chunked byte
stream.  `checkSumSHA1Read` below additionally represents mid-read failures;
this definition is its all-reads-succeed special case
(`chunkedDataRead_no_failures`). -/
def checkSumSHA1 (openResult : Except String (List Nat)) (filesize : Nat)
    (h : List Nat → String) : String :=
  match openResult with
  | .error e => e
  | .ok content => h (chunkedData content filesize)

/-- The bytes the loop actually feeds to the hash for chunk `i`, with the
mid-read failure path represented: `file.Read(buf)`'s return values are
ignored (main.go line 103) and `buf := make([]byte, blocksize)` is
zero-initialized, so a failed read of chunk `i` (`failing i = true`) leaves
the whole chunk as zero bytes and the loop continues. -/
def chunkAtRead (content : List Nat) (failing : Nat → Bool)
    (filesize i : Nat) : List Nat :=
  if failing i then List.replicate (blocksizeAt filesize i) 0
  else chunkAt content filesize i

/-- The byte stream written into the hash when chunk reads may fail. -/
def chunkedDataRead (content : List Nat) (failing : Nat → Bool)
    (filesize : Nat) : List Nat :=
  (List.range (blocksOf filesize)).flatMap (chunkAtRead content failing filesize)

/-- `checkSumSHA1` (main.go lines 85-108) with the mid-read failure path
represented: only an `os.Open` failure yields the error-description string;
a read failure is silently ignored and the function still returns an
ordinary digest — of partially zero-filled buffers. -/
def checkSumSHA1Read (openResult : Except String (List Nat))
    (failing : Nat → Bool) (filesize : Nat) (h : List Nat → String) : String :=
  match openResult with
  | .error e => e
  | .ok content => h (chunkedDataRead content failing filesize)

/-! ## Tree walker (main.go lines 111-130) -/

/-- The part of `os.FileInfo` that `walkPathNSum` inspects: `f.Name()` is the
entry's base name (not its full path). -/
structure FileInfoM where
  name : String
  size : Nat
  isSymlink : Bool
  isDir : Bool
  modTime : Nat
deriving DecidableEq, Repr

/-- Outcome of one `walkPathNSum` call: append to `ferrors`; return
`filepath.SkipDir` (prunes the subtree rooted at a directory entry); return
`nil` without enqueueing; or enqueue an `fInfo` onto the work queue. -/
inductive WalkAction where
  | recordError : WalkAction
  | skipDir : WalkAction
  | next : WalkAction
  | enqueue : fInfo → WalkAction
deriving DecidableEq, Repr

/-- `walkPathNSum` (main.go lines 111-130): nil info → record error; ignore
list contains `currentRoot + f.Name()` → SkipDir; symlink → skip; directory →
continue without emitting; otherwise enqueue the file descriptor. -/
def walkPathNSum (ignoredC : List String) (currentRoot : String)
    (pathname : String) (f : Option FileInfoM) : WalkAction :=
  match f with
  | none => .recordError
  | some fi =>
    if inSlice ignoredC (currentRoot ++ fi.name) then .skipDir
    else if fi.isSymlink then .next
    else if fi.isDir then .next
    else .enqueue ⟨pathname, fi.size, fi.isSymlink, fi.isDir, fi.modTime⟩

/-- Root handling in `main` (lines 210-223): `os.Lstat` the configured root;
if it is a symlink, resolve it once via `filepath.EvalSymlinks` (modelled by
the abstract `resolve`) and walk the target; `currentRoot` is set to this
resolved value before the walk. -/
def mainWalkRoot (resolve : String → String) (root : String)
    (rootIsSymlink : Bool) : String :=
  if rootIsSymlink then resolve root else root

/-! ## Aggregator / Outputter (main.go lines 148-168)

`Outputter` consumes items from the result queue until an item with an empty
`File` arrives (which nothing in the program sends).  Per item it looks the
path up in the prior snapshot `globalI`; if present with a different checksum
it appends the path to `globalDiff`; if absent it appends to `newfiles`;
unconditionally it writes `globalO[path] = checksum`.  Go maps are modelled
as functions `String → Option String`. -/

/-- Snapshot: Go `map[string]string`, as a partial function. -/
def Snapshot := String → Option String

/-- Point update of a snapshot: `m[k] = v`. -/
def snapInsert (m : Snapshot) (k v : String) : Snapshot :=
  fun q => if q = k then some v else m q

/-- The empty map `map[string]string{}` — the initial value of `globalO`
(main.go line 57). -/
def emptySnap : Snapshot := fun _ => none

/-- Aggregation state mutated by `Outputter`: the snapshot under construction
`globalO` and the two change lists (main.go lines 57-59). -/
structure AggState where
  globalO : Snapshot
  globalDiff : List String
  newfiles : List String

/-- Initial aggregation state of a run: `globalO = {}`, empty change lists. -/
def initAgg : AggState := ⟨emptySnap, [], []⟩

/-- One iteration of the `Outputter` loop body after the break test
(main.go lines 156-165), with `globalI` the prior snapshot. -/
def outputterStep (globalI : Snapshot) (s : AggState) (out : item) : AggState :=
  match globalI out.File with
  | some v =>
      if v ≠ out.Checksum then
        { s with globalDiff := s.globalDiff ++ [out.File],
                 globalO := snapInsert s.globalO out.File out.Checksum }
      else
        { s with globalO := snapInsert s.globalO out.File out.Checksum }
  | none =>
      { s with newfiles := s.newfiles ++ [out.File],
               globalO := snapInsert s.globalO out.File out.Checksum }

/-- The `Outputter` loop (main.go lines 151-167) over a queue of items,
including the `len(out.File) == 0` break. -/
def runOutputter (globalI : Snapshot) (s : AggState) : List item → AggState
  | [] => s
  | out :: rest =>
      if out.File.length = 0 then s
      else runOutputter globalI (outputterStep globalI s out) rest

/-- Aggregation of a whole result list ignoring the break (equal to
`runOutputter` whenever no item carries an empty path, which the program
never produces: walker paths are non-empty). -/
def runAgg (globalI : Snapshot) (s : AggState) (rs : List item) : AggState :=
  rs.foldl (outputterStep globalI) s

/-! ## Worker pool and sentinel shutdown (main.go lines 133-145, 201-204, 226-229)

`Worker` loops: receive from the work queue; a `nil` pointer is the sentinel —
the worker calls `wg.Done()` and breaks; otherwise it emits
`item{File: f.name, Checksum: cwf(...)}`.  We model the sequence of values a
given worker receives from the channel as a `List (Option fInfo)` and run the
loop over it. -/

/-- The item a worker emits for a descriptor, with `cw` the configured
checksum function applied to the file (main.go line 143). -/
def workerItem (cw : fInfo → String) (f : fInfo) : item :=
  ⟨f.name, cw f⟩

/-- `Worker` (main.go lines 133-145) run over the stream of values it
receives: returns the emitted items and whether it terminated (i.e. reached a
sentinel and called `wg.Done()`).  An exhausted stream without a sentinel
means the worker is still blocked on the channel. -/
def workerRun (cw : fInfo → String) : List (Option fInfo) → List item × Bool
  | [] => ([], false)
  | none :: _ => ([], true)
  | some f :: rest =>
      let r := workerRun cw rest
      (workerItem cw f :: r.1, r.2)

/-- The sentinel-sending loop in `main` (lines 226-228): `nPtr` iterations of
`wrkQueue <- nil`. -/
def sentinelsSent : Nat → List (Option fInfo)
  | 0 => []
  | n + 1 => sentinelsSent n ++ [none]

/-- The `sync.WaitGroup` join: `wg.Add(1)` is called once per spawned worker
(main.go line 202) and `wg.Done()` once per terminated worker (line 140);
`wg.Wait()` (line 229) returns exactly when the counter reaches zero. -/
def wgWaitReturns (adds dones : Nat) : Prop := adds - dones = 0

/-! ## Shutdown race (main.go lines 226-234)

After `wg.Wait()` returns, every worker has completed its sends on the
unbuffered `outQueue`, so every result has been *received* by the single
`Outputter` goroutine — but the outputter processes an item only after
receiving it, and the last received item may still be unprocessed when
`wg.Wait()` returns.  `main` then executes `time.Sleep(3 * time.Second)`
(line 230) — plain time passing, with no synchronization with the outputter —
and marshals `globalO` (line 232).  Whether the final item has been applied to
`globalO` by then is up to the scheduler; we expose that freedom as the
boolean `lastApplied`. -/

/-- The snapshot `main` persists (lines 230-234), as a function of the
results the workers emitted and of the scheduler's choice `lastApplied`:
`true` if the outputter got to process the last received result during the
3-second sleep, `false` if it did not. -/
def persistedSnapshot (globalI : Snapshot) (results : List item)
    (lastApplied : Bool) : Snapshot :=
  (runAgg globalI initAgg (if lastApplied then results else results.dropLast)).globalO

/-! ## Derived notions used to state the claims -/

/-- Whether one result is classified "changed" against the prior snapshot:
present with a different checksum (main.go lines 157-160). -/
def isChangedNow (globalI : Snapshot) (r : item) : Bool :=
  match globalI r.File with
  | some v => v ≠ r.Checksum
  | none => false

/-- Whether one result is classified "new": absent from the prior snapshot
(main.go lines 161-163). -/
def isNewNow (globalI : Snapshot) (r : item) : Bool :=
  (globalI r.File).isNone

/-- The value the snapshot under construction ends up holding for a path
after a sequence of writes: the last write wins. -/
def lastWrite (rs : List item) (p : String) : Option String :=
  match rs with
  | [] => none
  | r :: t =>
      match lastWrite t p with
      | some c => some c
      | none => if r.File = p then some r.Checksum else none

/-- Invariant of claim C10: every path in either change list has an entry in
the snapshot under construction. -/
def listsCovered (s : AggState) : Prop :=
  ∀ p, p ∈ s.newfiles ∨ p ∈ s.globalDiff → (s.globalO p).isSome = true

/-- One execution of the worker pool with `n` workers over descriptor set
`fs`: the descriptors are distributed among the `n` workers (each delivered
to exactly one), each worker receives its share followed by one sentinel and
emits its results, and the result queue delivers those per-worker output
streams in some interleaved order — hence some permutation of their
concatenation. -/
def PoolRun (cw : fInfo → String) (n : Nat) (fs : List fInfo)
    (rs : List item) : Prop :=
  ∃ asg : List (List fInfo),
    asg.length = n ∧
    asg.flatten.Perm fs ∧
    rs.Perm ((asg.map (fun xs => (workerRun cw (xs.map some ++ [none])).1)).flatten)

/-- The skip condition exactly as claim C5 words it: the entry's full path
matches an ignore entry, where for a symlinked root the original configured
root's identity — not the resolved target — is the match prefix.  An entry at
`pathname` under the resolved root corresponds to
`origRoot ++ (pathname minus the resolved-root prefix)`. -/
def specIgnoreSkip (ignoredC : List String) (origRoot resolvedRoot
    pathname : String) : Bool :=
  inSlice ignoredC (origRoot ++ pathname.drop resolvedRoot.length)

/-! ## Concrete material used by counterexamples and witnesses -/

/-- A concrete prior snapshot `{"a": "h1"}`. -/
def priorW : Snapshot := fun p => if p = "a" then some "h1" else none

/-- A concrete prior snapshot `{"/f": "h1"}`. -/
def priorF : Snapshot := fun p => if p = "/f" then some "h1" else none

/-- A concrete error-description string, as `fmt.Sprintf("%v", err)` yields
for a failed `os.Open` — stable across runs while the failure persists. -/
def errS : String := "open /f: permission denied"

/-- A concrete stand-in digest function for witnesses. -/
def hW : List Nat → String := fun bs => toString bs.length

/-- A concrete stand-in checksum-worker function for witnesses. -/
def cwW : fInfo → String := fun _ => "h"

/-- A concrete regular-file descriptor for witnesses. -/
def af : fInfo := ⟨"a", 1, false, false, 0⟩

/-! ## Helper lemmas about one outputter step -/

theorem outputterStep_globalO (g : Snapshot) (s : AggState) (r : item) :
    (outputterStep g s r).globalO = snapInsert s.globalO r.File r.Checksum := by
  unfold outputterStep
  cases g r.File with
  | none => rfl
  | some v => by_cases h : v = r.Checksum <;> simp [h]

theorem outputterStep_newfiles (g : Snapshot) (s : AggState) (r : item) :
    (outputterStep g s r).newfiles =
      s.newfiles ++ if isNewNow g r then [r.File] else [] := by
  unfold outputterStep isNewNow
  cases g r.File with
  | none => simp
  | some v => by_cases h : v = r.Checksum <;> simp [h]

theorem outputterStep_globalDiff (g : Snapshot) (s : AggState) (r : item) :
    (outputterStep g s r).globalDiff =
      s.globalDiff ++ if isChangedNow g r then [r.File] else [] := by
  unfold outputterStep isChangedNow
  cases g r.File with
  | none => simp
  | some v => by_cases h : v = r.Checksum <;> simp [h]

theorem runAgg_cons (g : Snapshot) (s : AggState) (r : item) (t : List item) :
    runAgg g s (r :: t) = runAgg g (outputterStep g s r) t := rfl

theorem runAgg_newfiles (g : Snapshot) (s : AggState) (rs : List item) :
    (runAgg g s rs).newfiles =
      s.newfiles ++ (rs.filter (isNewNow g)).map item.File := by
  induction rs generalizing s with
  | nil => simp [runAgg]
  | cons r t ih =>
    rw [runAgg_cons, ih, outputterStep_newfiles]
    cases h : isNewNow g r <;>
      simp [List.filter_cons, h, List.append_assoc]

theorem runAgg_globalDiff (g : Snapshot) (s : AggState) (rs : List item) :
    (runAgg g s rs).globalDiff =
      s.globalDiff ++ (rs.filter (isChangedNow g)).map item.File := by
  induction rs generalizing s with
  | nil => simp [runAgg]
  | cons r t ih =>
    rw [runAgg_cons, ih, outputterStep_globalDiff]
    cases h : isChangedNow g r <;>
      simp [List.filter_cons, h, List.append_assoc]

theorem runAgg_globalO (g : Snapshot) (s : AggState) (rs : List item)
    (p : String) :
    (runAgg g s rs).globalO p =
      match lastWrite rs p with
      | some c => some c
      | none => s.globalO p := by
  induction rs generalizing s with
  | nil => simp [runAgg, lastWrite]
  | cons r t ih =>
    rw [runAgg_cons, ih]
    cases hl : lastWrite t p with
    | some c => simp [lastWrite, hl]
    | none =>
      simp only [lastWrite, hl, outputterStep_globalO, snapInsert]
      by_cases hp : r.File = p
      · subst hp; simp
      · simp [hp, Ne.symm hp]

theorem lastWrite_eq_none_of_not_mem (rs : List item) (p : String)
    (hp : ∀ r ∈ rs, r.File ≠ p) : lastWrite rs p = none := by
  induction rs with
  | nil => rfl
  | cons r t ih =>
    have ht := ih fun x hx => hp x (List.mem_cons_of_mem _ hx)
    simp [lastWrite, ht, hp r (List.mem_cons_self _ _)]

/-! ## Claim theorems -/

/-- C1: for every ChecksumResult consumed by the Aggregator: if the result's
path is absent from the prior snapshot, the path is appended to the new-files
list (and the changed list is untouched); if present with a different
checksum, it is appended to the changed-files list (new-files untouched); if
present with an equal checksum, neither list is touched; and in every case
the new snapshot's entry for that path becomes the result's checksum. -/
theorem outputterStep_classification (globalI : Snapshot) (s : AggState)
    (out : item) :
    (globalI out.File = none →
      (outputterStep globalI s out).newfiles = s.newfiles ++ [out.File] ∧
      (outputterStep globalI s out).globalDiff = s.globalDiff) ∧
    (∀ v, globalI out.File = some v → v ≠ out.Checksum →
      (outputterStep globalI s out).globalDiff = s.globalDiff ++ [out.File] ∧
      (outputterStep globalI s out).newfiles = s.newfiles) ∧
    (globalI out.File = some out.Checksum →
      (outputterStep globalI s out).newfiles = s.newfiles ∧
      (outputterStep globalI s out).globalDiff = s.globalDiff) ∧
    (outputterStep globalI s out).globalO out.File = some out.Checksum := by
  refine ⟨fun h => ⟨?_, ?_⟩, fun v hv hne => ⟨?_, ?_⟩, fun h => ⟨?_, ?_⟩, ?_⟩
  · simp [outputterStep_newfiles, isNewNow, h]
  · simp [outputterStep_globalDiff, isChangedNow, h]
  · simp [outputterStep_globalDiff, isChangedNow, hv, hne]
  · simp [outputterStep_newfiles, isNewNow, hv]
  · simp [outputterStep_newfiles, isNewNow, h]
  · simp [outputterStep_globalDiff, isChangedNow, h]
  · simp [outputterStep_globalO, snapInsert]

/-- Witness for C1: the three branches exercised at concrete inputs against
the prior snapshot `{"a": "h1"}`. -/
theorem outputterStep_classification_witness :
    ((outputterStep priorW initAgg ⟨"b", "h2"⟩).newfiles =
        initAgg.newfiles ++ ["b"]) ∧
    ((outputterStep priorW initAgg ⟨"b", "h2"⟩).globalO "b" = some "h2") ∧
    ((outputterStep priorW initAgg ⟨"a", "h3"⟩).globalDiff =
        initAgg.globalDiff ++ ["a"]) ∧
    ((outputterStep priorW initAgg ⟨"a", "h1"⟩).newfiles = initAgg.newfiles) := by
  refine ⟨((outputterStep_classification priorW initAgg ⟨"b", "h2"⟩).1
            (by decide)).1,
          (outputterStep_classification priorW initAgg ⟨"b", "h2"⟩).2.2.2,
          ((outputterStep_classification priorW initAgg ⟨"a", "h3"⟩).2.1 "h1"
            (by decide) (by decide)).1,
          ((outputterStep_classification priorW initAgg ⟨"a", "h1"⟩).2.2.1
            (by decide)).1⟩

/-- C10: every aggregation step preserves the invariant that each path in the
new-files list or the changed-files list has an entry in the snapshot under
construction. -/
theorem lists_subset_snapshot_invariant (globalI : Snapshot) (s : AggState)
    (out : item) (hinv : listsCovered s) :
    listsCovered (outputterStep globalI s out) := by
  intro p hp
  have hgo : (outputterStep globalI s out).globalO p =
      if p = out.File then some out.Checksum else s.globalO p := by
    rw [outputterStep_globalO]; rfl
  rw [hgo]
  by_cases hpf : p = out.File
  · simp [hpf]
  · rw [if_neg hpf]
    apply hinv p
    rw [outputterStep_newfiles, outputterStep_globalDiff] at hp
    rcases hp with hp | hp
    · rcases List.mem_append.mp hp with h | h
      · exact Or.inl h
      · exfalso; apply hpf
        split at h <;> simp at h
        exact h
    · rcases List.mem_append.mp hp with h | h
      · exact Or.inr h
      · exfalso; apply hpf
        split at h <;> simp at h
        exact h

/-- Witness for C10: the invariant holds for the empty initial state and is
preserved through a concrete step. -/
theorem lists_subset_snapshot_invariant_witness :
    listsCovered (outputterStep priorW initAgg ⟨"b", "h2"⟩) := by
  apply lists_subset_snapshot_invariant
  intro p hp
  rcases hp with h | h <;> simp [initAgg] at h

/-- Counterexample to C8: with prior snapshot `{"a": "h1"}` and a scan that
produces no ChecksumResult for `"a"`, the new snapshot (built from the empty
map `globalO = {}`) has no entry for `"a"` — the prior entry does not remain
present, contrary to the claim. -/
theorem stale_entry_dropped_cex :
    priorW "a" = some "h1" ∧
    (runOutputter priorW initAgg []).globalO "a" = none ∧
    (runOutputter priorW initAgg []).newfiles = [] ∧
    (runOutputter priorW initAgg []).globalDiff = [] := by
  refine ⟨by decide, by decide, rfl, rfl⟩

/-- C8 as amended: a path of the prior snapshot for which no ChecksumResult
is produced in the current scan is never flagged — it appears in neither the
new-files list nor the changed-files list — but its prior entry does not
persist: the new snapshot, which starts from the empty map, has no entry for
it. -/
theorem unvisited_paths_dropped (globalI : Snapshot) (rs : List item)
    (p : String) (hp : ∀ r ∈ rs, r.File ≠ p) :
    (runAgg globalI initAgg rs).globalO p = none ∧
    p ∉ (runAgg globalI initAgg rs).newfiles ∧
    p ∉ (runAgg globalI initAgg rs).globalDiff := by
  refine ⟨?_, ?_, ?_⟩
  · rw [runAgg_globalO, lastWrite_eq_none_of_not_mem rs p hp]; rfl
  · rw [runAgg_newfiles]
    intro hmem
    rcases List.mem_append.mp hmem with h | h
    · simp [initAgg] at h
    · obtain ⟨r, hr, hrp⟩ := List.mem_map.mp h
      exact hp r (List.mem_of_mem_filter hr) hrp
  · rw [runAgg_globalDiff]
    intro hmem
    rcases List.mem_append.mp hmem with h | h
    · simp [initAgg] at h
    · obtain ⟨r, hr, hrp⟩ := List.mem_map.mp h
      exact hp r (List.mem_of_mem_filter hr) hrp

/-- Witness for the amended C8: prior `{"a": "h1"}`, one result for `"b"`
only; `"a"` is dropped from the snapshot and flagged nowhere. -/
theorem unvisited_paths_dropped_witness :
    (runAgg priorW initAgg [⟨"b", "h2"⟩]).globalO "a" = none ∧
    "a" ∉ (runAgg priorW initAgg [⟨"b", "h2"⟩]).newfiles ∧
    "a" ∉ (runAgg priorW initAgg [⟨"b", "h2"⟩]).globalDiff := by
  exact unvisited_paths_dropped priorW [⟨"b", "h2"⟩] "a" (by decide)

/-- C2 (the code violates it): `main` persists the snapshot after
`wg.Wait()` plus a fixed `time.Sleep(3 * time.Second)` (main.go line 230) —
a timeout with no synchronization with the Outputter goroutine.  Whether the
last result received on the unbuffered result queue has been applied to
`globalO` by persist time is the scheduler's choice (`lastApplied`).  With
one file `p` of checksum `c` and a schedule that does not run the outputter's
pending update within the sleep, the persisted snapshot misses `p`; the
favourable schedule contains it — so finalization is timeout-dependent, not
drain-confirmed. -/
theorem sleep_race_loses_result :
    persistedSnapshot emptySnap [⟨"p", "c"⟩] true "p" = some "c" ∧
    persistedSnapshot emptySnap [⟨"p", "c"⟩] false "p" = none := by
  refine ⟨by decide, rfl⟩

theorem flatMap_chunk_take (content : List Nat) (k : Nat) :
    (List.range k).flatMap (chunkAt content content.length) =
      content.take (k * CHUNKSIZE) := by
  induction k with
  | zero => simp
  | succ k ih =>
    rw [List.range_succ, List.flatMap_append, ih]
    have hfm : ([k] : List Nat).flatMap (chunkAt content content.length) =
        chunkAt content content.length k := by simp
    rw [hfm]
    unfold chunkAt blocksizeAt
    rcases le_or_lt content.length (k * CHUNKSIZE) with hle | hlt
    · rw [List.drop_eq_nil_of_le hle, List.take_nil, List.append_nil,
        List.take_of_length_le hle, List.take_of_length_le]
      exact le_trans hle (Nat.mul_le_mul_right _ (Nat.le_succ k))
    · rcases le_or_lt CHUNKSIZE (content.length - k * CHUNKSIZE) with hc | hc
      · rw [min_eq_left hc, Nat.succ_mul, List.take_add]
      · rw [min_eq_right (le_of_lt hc)]
        have hdl : (content.drop (k * CHUNKSIZE)).length =
            content.length - k * CHUNKSIZE := by
          rw [List.length_drop]
        rw [← hdl, List.take_length, List.take_append_drop,
          List.take_of_length_le]
        have : 0 < CHUNKSIZE := by decide
        calc content.length
            = k * CHUNKSIZE + (content.length - k * CHUNKSIZE) := by omega
          _ ≤ k * CHUNKSIZE + CHUNKSIZE := by omega
          _ = (k + 1) * CHUNKSIZE := by ring

theorem chunkedData_eq_content (content : List Nat) :
    chunkedData content content.length = content := by
  unfold chunkedData
  rw [flatMap_chunk_take]
  apply List.take_of_length_le
  unfold blocksOf CHUNKSIZE
  have h := Nat.div_add_mod (content.length + 8192 - 1) 8192
  have h2 : (content.length + 8192 - 1) % 8192 < 8192 :=
    Nat.mod_lt _ (by omega)
  omega

theorem flatMap_congr_on (l : List Nat) (f g : Nat → List Nat)
    (h : ∀ a ∈ l, f a = g a) : l.flatMap f = l.flatMap g := by
  induction l with
  | nil => rfl
  | cons a t ih =>
    rw [List.flatMap_cons, List.flatMap_cons, h a (List.mem_cons_self _ _),
      ih fun b hb => h b (List.mem_cons_of_mem _ hb)]

theorem chunkAtRead_all_failing (content : List Nat) (filesize i : Nat) :
    chunkAtRead content (fun _ => true) filesize i =
      chunkAt (List.replicate filesize 0) filesize i := by
  show List.replicate (blocksizeAt filesize i) 0 =
    ((List.replicate filesize 0).drop (i * CHUNKSIZE)).take
      (blocksizeAt filesize i)
  rw [List.drop_replicate, List.take_replicate]
  congr 1
  exact (Nat.min_eq_left (Nat.min_le_right _ _)).symm

/-- A file that opens but whose every chunk read fails feeds the hash
nothing but zero-filled buffers: the byte stream is `filesize` zero bytes. -/
theorem chunkedDataRead_all_failing (content : List Nat) (filesize : Nat) :
    chunkedDataRead content (fun _ => true) filesize =
      List.replicate filesize 0 := by
  have h1 : chunkedDataRead content (fun _ => true) filesize =
      chunkedData (List.replicate filesize 0) filesize := by
    unfold chunkedDataRead chunkedData
    exact flatMap_congr_on _ _ _
      fun i _ => chunkAtRead_all_failing content filesize i
  have h2 := chunkedData_eq_content (List.replicate filesize 0)
  rw [List.length_replicate] at h2
  rw [h1, h2]

/-- With no read failures, the read-aware model coincides with
`chunkedData` — `checkSumSHA1` is the all-reads-succeed case of
`checkSumSHA1Read`. -/
theorem chunkedDataRead_no_failures (content : List Nat) (filesize : Nat) :
    chunkedDataRead content (fun _ => false) filesize =
      chunkedData content filesize := by
  unfold chunkedDataRead chunkedData
  exact flatMap_congr_on _ _ _ fun i _ => rfl

/-- Counterexample to C4, in both of the claim's failure modes.
(i) "cannot be read": a file that opens but whose reads fail does NOT yield
an error-description string — `file.Read`'s error is ignored (main.go line
103) and the function returns an ordinary digest of the zero-filled buffers,
`h (replicate filesize 0)`.  (ii) "reported as changed on subsequent runs
until it becomes readable": `fmt.Sprintf("%v", err)` yields the same error
string on every failing run, so the second failing run finds the stored
sentinel equal to the freshly computed one and reports no change. -/
theorem unreadable_not_rereported_cex :
    checkSumSHA1Read (.ok [1, 2, 3]) (fun _ => true) 3 hW =
      hW (List.replicate 3 0) ∧
    (runOutputter priorF initAgg [⟨"/f", errS⟩]).globalDiff = ["/f"] ∧
    (runOutputter (runOutputter priorF initAgg [⟨"/f", errS⟩]).globalO
        initAgg [⟨"/f", errS⟩]).globalDiff = [] ∧
    (runOutputter (runOutputter priorF initAgg [⟨"/f", errS⟩]).globalO
        initAgg [⟨"/f", errS⟩]).newfiles = [] := by
  refine ⟨?_, by decide, by decide, by decide⟩
  show hW (chunkedDataRead [1, 2, 3] (fun _ => true) 3) =
    hW (List.replicate 3 0)
  rw [chunkedDataRead_all_failing]

/-- C4 as amended: if a file cannot be *opened*, the Checksum Function
returns the error-description string in place of a digest, without aborting
the scan; if the file opens but a *read* fails mid-checksum, the error is
ignored and the function returns an ordinary digest of the zero-filled chunk
buffers, not an error string.  The open-failure sentinel is written to the
snapshot; a path whose stored checksum differs from the sentinel (e.g. it
previously held a valid digest) is reported as changed on that failing run,
and again on the run where it becomes readable with a differing digest;
consecutive failing runs producing the identical error string report no
change, and a path absent from the prior snapshot is reported as new, not
changed. -/
theorem error_sentinel_changed_on_transition (e : String) (prior : Snapshot)
    (p : String) (filesize : Nat) (h : List Nat → String) (s : AggState)
    (d : String) (hd : prior p = some d) (hne : d ≠ e) :
    (∀ failing, checkSumSHA1Read (.error e) failing filesize h = e) ∧
    (∀ content, checkSumSHA1Read (.ok content) (fun _ => true) filesize h =
      h (List.replicate filesize 0)) ∧
    (outputterStep prior s ⟨p, e⟩).globalDiff = s.globalDiff ++ [p] ∧
    (outputterStep prior s ⟨p, e⟩).globalO p = some e ∧
    (∀ s2, (outputterStep (outputterStep prior s ⟨p, e⟩).globalO s2
        ⟨p, e⟩).globalDiff = s2.globalDiff) ∧
    (∀ s2 d2, d2 ≠ e →
      (outputterStep (outputterStep prior s ⟨p, e⟩).globalO s2
        ⟨p, d2⟩).globalDiff = s2.globalDiff ++ [p]) ∧
    (∀ s2 q, prior q = none →
      (outputterStep prior s2 ⟨q, e⟩).newfiles = s2.newfiles ++ [q] ∧
      (outputterStep prior s2 ⟨q, e⟩).globalDiff = s2.globalDiff) := by
  have hsnap : (outputterStep prior s ⟨p, e⟩).globalO p = some e := by
    simp [outputterStep_globalO, snapInsert]
  refine ⟨fun failing => rfl, fun content => ?_, ?_, hsnap, fun s2 => ?_,
    fun s2 d2 hd2 => ?_, fun s2 q hq => ⟨?_, ?_⟩⟩
  · show h (chunkedDataRead content (fun _ => true) filesize) =
      h (List.replicate filesize 0)
    rw [chunkedDataRead_all_failing]
  · simp [outputterStep_globalDiff, isChangedNow, hd, hne]
  · simp [outputterStep_globalDiff, isChangedNow, hsnap]
  · simp [outputterStep_globalDiff, isChangedNow, hsnap, Ne.symm hd2]
  · simp [outputterStep_newfiles, isNewNow, hq]
  · simp [outputterStep_globalDiff, isChangedNow, hq]

/-- Witness for the amended C4: prior `{"/f": "h1"}`, the concrete error
string, a fully failing read, both follow-up runs, and a previously unseen
unreadable path. -/
theorem error_sentinel_changed_on_transition_witness :
    checkSumSHA1Read (.error errS) (fun _ => true) 3 hW = errS ∧
    checkSumSHA1Read (.ok [1, 2, 3]) (fun _ => true) 3 hW =
      hW (List.replicate 3 0) ∧
    (outputterStep priorF initAgg ⟨"/f", errS⟩).globalDiff =
      initAgg.globalDiff ++ ["/f"] ∧
    (outputterStep (outputterStep priorF initAgg ⟨"/f", errS⟩).globalO
        initAgg ⟨"/f", errS⟩).globalDiff = initAgg.globalDiff ∧
    (outputterStep (outputterStep priorF initAgg ⟨"/f", errS⟩).globalO
        initAgg ⟨"/f", "h9"⟩).globalDiff = initAgg.globalDiff ++ ["/f"] ∧
    (outputterStep priorF initAgg ⟨"/g", errS⟩).newfiles =
      initAgg.newfiles ++ ["/g"] := by
  have h := error_sentinel_changed_on_transition errS priorF "/f" 3 hW
    initAgg "h1" (by decide) (by decide)
  exact ⟨h.1 (fun _ => true), h.2.1 [1, 2, 3], h.2.2.1, h.2.2.2.2.1 initAgg,
    h.2.2.2.2.2.1 initAgg "h9" (by decide),
    (h.2.2.2.2.2.2 initAgg "/g" (by decide)).1⟩

/-- Counterexample to C5: the walker's ignore test is
`inSlice(conf.Ignored, currentRoot + f.Name())` (main.go line 116), where
`currentRoot` is the root *after* symlink resolution (main.go lines 214-222)
and `f.Name()` is only the entry's base name.  With ignore entry
`"/orig/sub/x"`, configured root `"/orig"` resolving to `"/real"`, and the
regular file at `"/real/sub/x"` (base name `"x"`): the claim's matching —
full path under the original root's identity — says skip, but the code
compares against `"/realx"` and enqueues the file. -/
theorem ignore_match_cex :
    specIgnoreSkip ["/orig/sub/x"] "/orig" "/real" "/real/sub/x" = true ∧
    mainWalkRoot (fun _ => "/real") "/orig" true = "/real" ∧
    walkPathNSum ["/orig/sub/x"] (mainWalkRoot (fun _ => "/real") "/orig" true)
        "/real/sub/x" (some ⟨"x", 5, false, false, 0⟩) =
      .enqueue ⟨"/real/sub/x", 5, false, false, 0⟩ := by
  refine ⟨by decide, rfl, by decide⟩

/-- C5 as amended: an entry visited by the walker is skipped together with
the subtree it roots (via `filepath.SkipDir`) exactly when the ignore list
contains the concatenation of the current root and the entry's *base name* —
not its full path — and for a symlinked root the current root is the
*resolved target*, not the original configured root. -/
theorem walker_skip_iff (ignoredC : List String) (resolve : String → String)
    (root : String) (isLink : Bool) (pathname : String) (fi : FileInfoM) :
    (walkPathNSum ignoredC (mainWalkRoot resolve root isLink) pathname
        (some fi) = .skipDir ↔
      inSlice ignoredC (mainWalkRoot resolve root isLink ++ fi.name) = true) ∧
    (isLink = true → mainWalkRoot resolve root isLink = resolve root) := by
  constructor
  · unfold walkPathNSum
    cases h : inSlice ignoredC (mainWalkRoot resolve root isLink ++ fi.name) with
    | true => simp [h]
    | false =>
      simp only [h, Bool.false_eq_true, if_false]
      constructor
      · intro hcontra
        split at hcontra
        · exact absurd hcontra (by simp)
        · split at hcontra
          · exact absurd hcontra (by simp)
          · exact absurd hcontra (by simp)
      · intro hcontra
        exact absurd hcontra (by simp)
  · intro h
    simp [mainWalkRoot, h]

/-- Witness for the amended C5: an entry whose (resolved root ++ base name)
is in the ignore list is skipped with its subtree; the symlinked root is the
resolved target. -/
theorem walker_skip_iff_witness :
    walkPathNSum ["/realx"] (mainWalkRoot (fun _ => "/real") "/orig" true)
        "/real/x" (some ⟨"x", 5, false, true, 0⟩) = .skipDir ∧
    mainWalkRoot (fun _ => "/real") "/orig" true = "/real" := by
  have h := walker_skip_iff ["/realx"] (fun _ => "/real") "/orig" true
    "/real/x" ⟨"x", 5, false, true, 0⟩
  exact ⟨h.1.mpr (by decide), h.2 rfl⟩

/-- C7: a symlink encountered during traversal is never enqueued onto the
work queue (both possible walker outcomes for it — SkipDir when ignored,
plain skip otherwise — emit nothing), hence never checksummed, while a
configured root that is itself a symlink is resolved exactly once before the
walk (`mainWalkRoot` applies `filepath.EvalSymlinks` one time) and the walk
proceeds against the resolved target. -/
theorem symlink_never_checksummed (ignoredC : List String)
    (currentRoot pathname : String) (fi : FileInfoM)
    (hlink : fi.isSymlink = true) :
    (∀ f, walkPathNSum ignoredC currentRoot pathname (some fi) ≠
      .enqueue f) ∧
    (∀ resolve root, mainWalkRoot resolve root true = resolve root) ∧
    (∀ resolve root, mainWalkRoot resolve root false = root) := by
  refine ⟨fun f => ?_, fun resolve root => rfl, fun resolve root => rfl⟩
  simp only [walkPathNSum]
  split
  · simp
  · simp [hlink]

/-- Witness for C7: a concrete symlink entry is not enqueued; root
resolution applies exactly once. -/
theorem symlink_never_checksummed_witness :
    (∀ f, walkPathNSum [] "/real" "/real/link"
      (some ⟨"link", 3, true, false, 0⟩) ≠ .enqueue f) ∧
    mainWalkRoot (fun _ => "/real") "/orig" true = "/real" := by
  have h := symlink_never_checksummed [] "/real" "/real/link"
    ⟨"link", 3, true, false, 0⟩ rfl
  exact ⟨h.1, h.2.1 (fun _ => "/real") "/orig"⟩

/-- C6: with one stream of work per worker (`work.length = n`), the shutdown
coordinator sends exactly one sentinel per worker (`sentinelsSent n` has
length `n` and consists solely of sentinels); a worker fed its descriptors
followed by one sentinel emits exactly its results and terminates; a worker
that never receives a sentinel never terminates; and `wg.Wait()` returns
exactly when all `n` workers have called `Done` — with any fewer it blocks. -/
theorem sentinel_shutdown (cw : fInfo → String) (n : Nat)
    (work : List (List fInfo)) (hlen : work.length = n) :
    (sentinelsSent n).length = work.length ∧
    (∀ x ∈ sentinelsSent n, x = none) ∧
    (∀ xs ∈ work,
      workerRun cw (xs.map some ++ [none]) = (xs.map (workerItem cw), true)) ∧
    (∀ xs : List fInfo, (workerRun cw (xs.map some)).2 = false) ∧
    wgWaitReturns n n ∧
    (∀ d, d < n → ¬ wgWaitReturns n d) := by
  have hsl : ∀ m, (sentinelsSent m).length = m := by
    intro m
    induction m with
    | zero => rfl
    | succ k ih => simp [sentinelsSent, ih]
  have hsn : ∀ m, ∀ x ∈ sentinelsSent m, x = none := by
    intro m
    induction m with
    | zero => intro x hx; simp [sentinelsSent] at hx
    | succ k ih =>
      intro x hx
      rcases List.mem_append.mp hx with h | h
      · exact ih x h
      · simpa using h
  have hwr : ∀ xs : List fInfo,
      workerRun cw (xs.map some ++ [none]) = (xs.map (workerItem cw), true) := by
    intro xs
    induction xs with
    | nil => rfl
    | cons f t ih => simp [workerRun, ih]
  have hwn : ∀ xs : List fInfo, (workerRun cw (xs.map some)).2 = false := by
    intro xs
    induction xs with
    | nil => rfl
    | cons f t ih => simpa [workerRun] using ih
  refine ⟨by rw [hsl, hlen], hsn n, fun xs _ => hwr xs, hwn, ?_, ?_⟩
  · simp [wgWaitReturns]
  · intro d hd
    simp only [wgWaitReturns]
    omega

/-- Witness for C6: two workers, one with a single file and one idle; both
terminate on their sentinel, the sentinel count matches, and the join holds
at two Done calls but not at one. -/
theorem sentinel_shutdown_witness :
    workerRun cwW ([af].map some ++ [none]) = ([⟨"a", "h"⟩], true) ∧
    (workerRun cwW ([af].map some)).2 = false ∧
    (sentinelsSent 2).length = 2 ∧
    wgWaitReturns 2 2 ∧
    ¬ wgWaitReturns 2 1 := by
  have h := sentinel_shutdown cwW 2 [[af], []] rfl
  exact ⟨h.2.2.1 [af] (by simp), h.2.2.2.1 [af], h.1, h.2.2.2.2.1,
    h.2.2.2.2.2 1 (by omega)⟩

/-! ## Chunked checksum equivalence (C3) -/

/-- C3: for a readable file whose declared size equals its content's length,
the digest computed by the chunked loop — `ceil(n/CHUNKSIZE)` chunks, the
i-th of size `min(CHUNKSIZE, n - i*CHUNKSIZE)` — equals the digest of the
full contents in one pass, for every digest function of the byte stream; a
zero-byte file requires zero chunks and yields the canonical empty-input
digest. -/
theorem chunked_equals_onepass (content : List Nat) (filesize : Nat)
    (hsz : filesize = content.length) (h : List Nat → String) :
    checkSumSHA1 (.ok content) filesize h = h content ∧
    blocksOf 0 = 0 ∧
    checkSumSHA1 (.ok []) 0 h = h [] := by
  subst hsz
  refine ⟨?_, by decide, rfl⟩
  show h (chunkedData content content.length) = h content
  rw [chunkedData_eq_content]

/-- Witness for C3: a three-byte file, chunked, hashes like the one-pass
digest; the zero-byte file yields the empty-input digest. -/
theorem chunked_equals_onepass_witness :
    checkSumSHA1 (.ok [1, 2, 3]) 3 hW = hW [1, 2, 3] ∧
    checkSumSHA1 (.ok []) 0 hW = hW [] := by
  have h := chunked_equals_onepass [1, 2, 3] 3 rfl hW
  exact ⟨h.1, h.2.2⟩

/-! ## Pool-size independence (C9) -/

theorem workerRun_stream (cw : fInfo → String) (xs : List fInfo) :
    workerRun cw (xs.map some ++ [none]) = (xs.map (workerItem cw), true) := by
  induction xs with
  | nil => rfl
  | cons f t ih => simp [workerRun, ih]

theorem poolRun_perm (cw : fInfo → String) (n : Nat) (fs : List fInfo)
    (rs : List item) (hrun : PoolRun cw n fs rs) :
    rs.Perm (fs.map (workerItem cw)) := by
  obtain ⟨asg, hlen, hperm, hrs⟩ := hrun
  have h1 : (asg.map
        fun xs => (workerRun cw (xs.map some ++ [none])).1).flatten =
      asg.flatten.map (workerItem cw) := by
    simp only [workerRun_stream]
    exact (List.map_flatten _ _).symm
  rw [h1] at hrs
  exact hrs.trans (hperm.map (workerItem cw))

theorem lastWrite_eq_some_iff (rs : List item) (p c : String)
    (hnodup : (rs.map item.File).Nodup) :
    lastWrite rs p = some c ↔ (⟨p, c⟩ : item) ∈ rs := by
  induction rs with
  | nil => simp [lastWrite]
  | cons r t ih =>
    rw [List.map_cons, List.nodup_cons] at hnodup
    obtain ⟨hnm, hnd⟩ := hnodup
    constructor
    · intro h
      simp only [lastWrite] at h
      cases hl : lastWrite t p with
      | some c2 =>
        rw [hl] at h
        simp only [Option.some.injEq] at h
        subst h
        exact List.mem_cons_of_mem _ ((ih hnd).mp hl)
      | none =>
        rw [hl] at h
        by_cases hf : r.File = p
        · rw [if_pos hf] at h
          simp only [Option.some.injEq] at h
          have hr : r = ⟨p, c⟩ := by
            cases r
            simp only [item.mk.injEq]
            exact ⟨hf, h⟩
          rw [← hr]
          exact List.mem_cons_self _ _
        · rw [if_neg hf] at h
          exact absurd h (by simp)
    · intro h
      rcases List.mem_cons.mp h with h | h
      · have hf : r.File = p := by rw [← h]
        have hc : r.Checksum = c := by rw [← h]
        have hnone : lastWrite t p = none := by
          apply lastWrite_eq_none_of_not_mem
          intro x hx hxp
          apply hnm
          rw [← hf] at hxp
          exact hxp ▸ List.mem_map_of_mem item.File hx
        simp [lastWrite, hnone, hf, hc]
      · have hmem := (ih hnd).mpr h
        simp [lastWrite, hmem]

theorem lastWrite_perm (rs₁ rs₂ : List item) (p : String)
    (hperm : rs₁.Perm rs₂) (hnodup : (rs₁.map item.File).Nodup) :
    lastWrite rs₁ p = lastWrite rs₂ p := by
  have hnd2 : (rs₂.map item.File).Nodup :=
    ((hperm.map item.File).nodup_iff).mp hnodup
  cases h1 : lastWrite rs₁ p with
  | some c =>
    have hm := (lastWrite_eq_some_iff rs₁ p c hnodup).mp h1
    exact ((lastWrite_eq_some_iff rs₂ p c hnd2).mpr
      (hperm.mem_iff.mp hm)).symm
  | none =>
    cases h2 : lastWrite rs₂ p with
    | none => rfl
    | some c =>
      have hm := (lastWrite_eq_some_iff rs₂ p c hnd2).mp h2
      have hcontra := (lastWrite_eq_some_iff rs₁ p c hnodup).mpr
        (hperm.mem_iff.mpr hm)
      rw [h1] at hcontra
      exact absurd hcontra (by simp)

/-- C9: over the same fixed set of file descriptors (with structurally unique
paths, as a single walk produces) and the same checksum function, an
execution of the scan with worker-pool size 1 and one with worker-pool size
16 produce identical final snapshots and change lists that are equal as sets
(permutations of each other). -/
theorem pool_size_independence (globalI : Snapshot) (cw : fInfo → String)
    (fs : List fInfo) (rs₁ rs₂ : List item)
    (hrun1 : PoolRun cw 1 fs rs₁) (hrun16 : PoolRun cw 16 fs rs₂)
    (hnodup : (fs.map fInfo.name).Nodup) :
    (∀ p, (runAgg globalI initAgg rs₁).globalO p =
          (runAgg globalI initAgg rs₂).globalO p) ∧
    (runAgg globalI initAgg rs₁).newfiles.Perm
      (runAgg globalI initAgg rs₂).newfiles ∧
    (runAgg globalI initAgg rs₁).globalDiff.Perm
      (runAgg globalI initAgg rs₂).globalDiff := by
  have hp1 := poolRun_perm cw 1 fs rs₁ hrun1
  have hp2 := poolRun_perm cw 16 fs rs₂ hrun16
  have hperm : rs₁.Perm rs₂ := hp1.trans hp2.symm
  have hnd1 : (rs₁.map item.File).Nodup := by
    have hcomp : ((fs.map (workerItem cw)).map item.File) =
        fs.map fInfo.name := by
      rw [List.map_map]; rfl
    have hbase : ((fs.map (workerItem cw)).map item.File).Nodup := by
      rw [hcomp]; exact hnodup
    exact ((hp1.map item.File).nodup_iff).mpr hbase
  refine ⟨?_, ?_, ?_⟩
  · intro p
    rw [runAgg_globalO, runAgg_globalO, lastWrite_perm rs₁ rs₂ p hperm hnd1]
  · rw [runAgg_newfiles, runAgg_newfiles]
    exact List.Perm.append_left _ ((hperm.filter _).map _)
  · rw [runAgg_globalDiff, runAgg_globalDiff]
    exact List.Perm.append_left _ ((hperm.filter _).map _)

/-- Witness for C9: one file `a`, a pool of size 1 (one worker holding the
file) and a pool of size 16 (fifteen idle workers), with equal outcomes. -/
theorem pool_size_independence_witness :
    (runAgg emptySnap initAgg [⟨"a", "h"⟩]).newfiles.Perm
      (runAgg emptySnap initAgg [⟨"a", "h"⟩]).newfiles ∧
    (runAgg emptySnap initAgg [⟨"a", "h"⟩]).globalO "a" =
      (runAgg emptySnap initAgg [⟨"a", "h"⟩]).globalO "a" := by
  have h := pool_size_independence emptySnap cwW [af] [⟨"a", "h"⟩]
    [⟨"a", "h"⟩]
    ⟨[[af]], rfl, List.Perm.refl _, List.Perm.refl _⟩
    ⟨[af] :: List.replicate 15 [], rfl, List.Perm.refl _, List.Perm.refl _⟩
    (by simp)
  exact ⟨h.2.1, h.1 "a"⟩

end Fim
